import Mathlib

/-!
# Verification of the bolt-core cryptographic primitives

A shallow embedding of the `bolt-core` Rust crate
(`src/rust/bolt-core/src/`) together with proofs of its specified
properties.

Modelling conventions:
* Rust byte slices (`&[u8]`, `[u8; N]`, `Vec<u8>`) become `List Nat`
  with side conditions `b < 256` where the value range matters.
* Rust strings become `List Nat` of Unicode code points (`strCodes`
  turns a Lean string literal into this form); `str::to_uppercase`
  is modelled on the ASCII range, the only range the peer-code
  alphabet and the hex output exercise. `String::len` (UTF-8 byte
  length) is `strByteLen`.
* `Result<T, BoltError>` becomes `Except BoltError T`.
* The NaCl box cipher (`crypto_box` crate, an external dependency) is
  abstracted as a `BoxPrimitive` record; its round-trip contract
  enters theorems as an explicit hypothesis.
* Randomness (`OsRng`) is passed in as an explicit byte stream, and
  the `fill_unbiased` retry loop carries explicit fuel.
-/

namespace BoltCore

/-- Code points of a Lean string literal, the form in which Rust
string values are embedded. -/
def strCodes (s : String) : List Nat :=
  s.toList.map Char.toNat

/-! ## Constants (`constants.rs`) -/

def NONCE_LENGTH : Nat := 24

def PUBLIC_KEY_LENGTH : Nat := 32

def PEER_CODE_ALPHABET : List Nat :=
  strCodes "ABCDEFGHJKMNPQRSTUVWXYZ23456789"

def SAS_LENGTH : Nat := 6

def REJECTION_MAX : Nat := 248

/-! ## Errors (`errors.rs`) -/

inductive BoltError where
  | Encryption (msg : String)
  | Connection (msg : String)
  | Transfer (msg : String)
  | Integrity (msg : String)
  | Encoding (msg : String)
deriving DecidableEq

/-- `true` exactly on the `Encryption` variant of `BoltError`. -/
def BoltError.isEncryption : BoltError → Bool
  | .Encryption _ => true
  | _ => false

/-- `true` exactly on the `Encoding` variant of `BoltError`. -/
def BoltError.isEncoding : BoltError → Bool
  | .Encoding _ => true
  | _ => false

def WIRE_ERROR_CODES : List String :=
  [ "VERSION_MISMATCH"
  , "ENCRYPTION_FAILED"
  , "INTEGRITY_FAILED"
  , "REPLAY_DETECTED"
  , "TRANSFER_FAILED"
  , "LIMIT_EXCEEDED"
  , "CONNECTION_LOST"
  , "PEER_NOT_FOUND"
  , "ALREADY_CONNECTED"
  , "INVALID_STATE"
  , "KEY_MISMATCH"
  , "DUPLICATE_HELLO"
  , "ENVELOPE_REQUIRED"
  , "ENVELOPE_UNNEGOTIATED"
  , "ENVELOPE_DECRYPT_FAIL"
  , "ENVELOPE_INVALID"
  , "HELLO_PARSE_ERROR"
  , "HELLO_DECRYPT_FAIL"
  , "HELLO_SCHEMA_ERROR"
  , "INVALID_MESSAGE"
  , "UNKNOWN_MESSAGE_TYPE"
  , "PROTOCOL_VIOLATION" ]

def is_valid_wire_error_code (code : String) : Bool :=
  WIRE_ERROR_CODES.contains code

/-! ## Characters and text

Rust `char::to_uppercase` on the ASCII range: `a`-`z` maps to `A`-`Z`,
everything else is fixed. -/

def toUpperCp (c : Nat) : Nat :=
  if 97 ≤ c ∧ c ≤ 122 then c - 32 else c

/-- ASCII lowercasing, used only to state that lowercase input is
accepted. -/
def toLowerCp (c : Nat) : Nat :=
  if 65 ≤ c ∧ c ≤ 90 then c + 32 else c

/-- UTF-8 encoded size of one scalar value; Rust `String::len` sums these. -/
def cpUtf8Size (c : Nat) : Nat :=
  if c < 128 then 1
  else if c < 2048 then 2
  else if c < 65536 then 3
  else 4

/-- Rust `String::len`: the UTF-8 byte length. -/
def strByteLen (s : List Nat) : Nat :=
  (s.map cpUtf8Size).sum

/-! ## Hex encoding (`encoding.rs`) -/

def hexDigitCp (n : Nat) : Nat :=
  if n < 10 then 48 + n else 87 + n

/-- `encoding::to_hex`: each byte becomes two lowercase hex digits. -/
def to_hex (data : List Nat) : List Nat :=
  (data.map (fun b => [hexDigitCp (b / 16), hexDigitCp (b % 16)])).flatten

/-! ## Peer codes (`peer_code.rs`) -/

/-- `is_valid_peer_code`: strip dashes, uppercase, then require byte
length 6 or 8 and every character in the alphabet. -/
def is_valid_peer_code (code : List Nat) : Bool :=
  let normalized := (code.filter (fun c => c ≠ 45)).map toUpperCp
  (strByteLen normalized == 6 || strByteLen normalized == 8) &&
    normalized.all (fun c => PEER_CODE_ALPHABET.contains c)

/-- `normalize_peer_code`: strip dashes (code point 45), uppercase. -/
def normalize_peer_code (code : List Nat) : List Nat :=
  (code.filter (fun c => c ≠ 45)).map toUpperCp

/-- The body of the `for` loop over one random batch in
`fill_unbiased`: stop once `count` characters are emitted, discard
bytes `≥ REJECTION_MAX`, emit `alphabet[b % 31]` for survivors. -/
def processBatch (count : Nat) : List Nat → List Nat → List Nat
  | [], acc => acc
  | b :: rest, acc =>
    if count ≤ acc.length then acc
    else if b < REJECTION_MAX then
      processBatch count rest
        (acc ++ [PEER_CODE_ALPHABET.getD (b % PEER_CODE_ALPHABET.length) 65])
    else processBatch count rest acc

/-- The `while` loop of `fill_unbiased`, drawing batches of
`count - acc.length + 4` bytes from the stream; `fuel` bounds the
number of iterations (the Rust loop retries unboundedly). -/
def fillLoop (stream : Nat → Nat) (count : Nat) :
    Nat → Nat → List Nat → Option (List Nat)
  | 0, _, _ => none
  | fuel + 1, pos, acc =>
    if acc.length < count then
      fillLoop stream count fuel (pos + (count - acc.length + 4))
        (processBatch count
          ((List.range (count - acc.length + 4)).map (fun i => stream (pos + i)))
          acc)
    else some acc

/-- `fill_unbiased(count)` with the random source made explicit. -/
def fill_unbiased (stream : Nat → Nat) (count : Nat) (fuel : Nat) :
    Option (List Nat) :=
  fillLoop stream count fuel 0 []

/-! ## SHA-256 (`hash.rs`, via the `sha2` crate: FIPS 180-4)

32-bit machine words are `Nat` reduced modulo `2 ^ 32`. -/

def w32 (n : Nat) : Nat := n % 4294967296

/-- Right rotation of a 32-bit word, arithmetically. -/
def rotr (n x : Nat) : Nat := x / 2 ^ n + x % 2 ^ n * 2 ^ (32 - n)

def shr (n x : Nat) : Nat := x / 2 ^ n

def bsig0 (x : Nat) : Nat := rotr 2 x ^^^ rotr 13 x ^^^ rotr 22 x

def bsig1 (x : Nat) : Nat := rotr 6 x ^^^ rotr 11 x ^^^ rotr 25 x

def ssig0 (x : Nat) : Nat := rotr 7 x ^^^ rotr 18 x ^^^ shr 3 x

def ssig1 (x : Nat) : Nat := rotr 17 x ^^^ rotr 19 x ^^^ shr 10 x

def ch (x y z : Nat) : Nat := (x &&& y) ^^^ ((4294967295 - x) &&& z)

def maj (x y z : Nat) : Nat := (x &&& y) ^^^ (x &&& z) ^^^ (y &&& z)

/-- `k` bytes of `n`, big-endian. -/
def beBytes : Nat → Nat → List Nat
  | 0, _ => []
  | k + 1, n => beBytes k (n / 256) ++ [n % 256]

/-- SHA-256 padding: `0x80`, zeros to 56 mod 64, 8-byte big-endian bit length. -/
def padMessage (msg : List Nat) : List Nat :=
  msg ++ [128] ++ List.replicate ((119 - msg.length % 64) % 64) 0 ++
    beBytes 8 (8 * msg.length)

/-- Big-endian 32-bit words from groups of four bytes. -/
def bytesToWords : List Nat → List Nat
  | b0 :: b1 :: b2 :: b3 :: rest =>
    (b0 * 16777216 + b1 * 65536 + b2 * 256 + b3) :: bytesToWords rest
  | _ => []

/-- Split a word list into 16-word blocks; the fuel argument (any
bound on the number of blocks, here the list length) keeps the
recursion structural. -/
def chunks16Fuel : Nat → List Nat → List (List Nat)
  | 0, _ => []
  | _, [] => []
  | fuel + 1, w :: rest => ((w :: rest).take 16) :: chunks16Fuel fuel ((w :: rest).drop 16)

/-- Split a word list into 16-word blocks. -/
def chunks16 (ws : List Nat) : List (List Nat) :=
  chunks16Fuel ws.length ws

/-- Append the next message-schedule word `W[i]`. -/
def schedStep (w : List Nat) : List Nat :=
  let i := w.length
  w ++ [w32 (ssig1 (w.getD (i - 2) 0) + w.getD (i - 7) 0 +
             ssig0 (w.getD (i - 15) 0) + w.getD (i - 16) 0)]

def extendSchedule : Nat → List Nat → List Nat
  | 0, w => w
  | n + 1, w => extendSchedule n (schedStep w)

def K : List Nat :=
  [ 1116352408, 1899447441, 3049323471, 3921009573
  , 961987163, 1508970993, 2453635748, 2870763221
  , 3624381080, 310598401, 607225278, 1426881987
  , 1925078388, 2162078206, 2614888103, 3248222580
  , 3835390401, 4022224774, 264347078, 604807628
  , 770255983, 1249150122, 1555081692, 1996064986
  , 2554220882, 2821834349, 2952996808, 3210313671
  , 3336571891, 3584528711, 113926993, 338241895
  , 666307205, 773529912, 1294757372, 1396182291
  , 1695183700, 1986661051, 2177026350, 2456956037
  , 2730485921, 2820302411, 3259730800, 3345764771
  , 3516065817, 3600352804, 4094571909, 275423344
  , 430227734, 506948616, 659060556, 883997877
  , 958139571, 1322822218, 1537002063, 1747873779
  , 1955562222, 2024104815, 2227730452, 2361852424
  , 2428436474, 2756734187, 3204031479, 3329325298 ]

def H0 : List Nat :=
  [ 1779033703, 3144134277, 1013904242, 2773480762
  , 1359893119, 2600822924, 528734635, 1541459225 ]

/-- One round of the SHA-256 compression function on the state
`[a, b, c, d, e, f, g, h]`. -/
def compressStep (s : List Nat) (kw : Nat × Nat) : List Nat :=
  let a := s.getD 0 0
  let b := s.getD 1 0
  let c := s.getD 2 0
  let d := s.getD 3 0
  let e := s.getD 4 0
  let f := s.getD 5 0
  let g := s.getD 6 0
  let h := s.getD 7 0
  let t1 := w32 (h + bsig1 e + ch e f g + kw.1 + kw.2)
  let t2 := w32 (bsig0 a + maj a b c)
  [w32 (t1 + t2), a, b, c, w32 (d + t1), e, f, g]

def processBlock (H : List Nat) (block : List Nat) : List Nat :=
  let w := extendSchedule 48 block
  let s := (K.zip w).foldl compressStep H
  List.zipWith (fun x y => w32 (x + y)) H s

/-- `hash::sha256`: the 32-byte SHA-256 digest. -/
def sha256 (msg : List Nat) : List Nat :=
  let final := (chunks16 (bytesToWords (padMessage msg))).foldl processBlock H0
  (final.map (beBytes 4)).flatten

/-- `hash::sha256_hex`: lowercase hex of the digest. -/
def sha256_hex (data : List Nat) : List Nat := to_hex (sha256 data)

/-! ## SAS (`sas.rs`) -/

/-- The scan of `sort32`: `true` when the first position with
differing bytes has the `a` byte smaller (so `a` goes first), and on
fully equal inputs. -/
def sort32Go : List Nat → List Nat → Bool
  | [], _ => true
  | _ :: _, [] => true
  | x :: xs, y :: ys => if x ≠ y then decide (x < y) else sort32Go xs ys

/-- `sas::sort32`: lexicographically smaller 32-byte value first; equal
values concatenate in the given order. -/
def sort32 (a b : List Nat) : List Nat :=
  if sort32Go a b then a ++ b else b ++ a

/-- `sas::compute_sas`: first `SAS_LENGTH` hex characters of
`SHA-256(sort32(idA, idB) ++ sort32(ephA, ephB))`, uppercased. -/
def compute_sas (identity_a identity_b ephemeral_a ephemeral_b : List Nat) :
    List Nat :=
  let sorted_identity := sort32 identity_a identity_b
  let sorted_ephemeral := sort32 ephemeral_a ephemeral_b
  let combined := sorted_identity ++ sorted_ephemeral
  let digest := sha256 combined
  let hex := to_hex digest
  (hex.take SAS_LENGTH).map toUpperCp

/-! ## Base64 (`encoding.rs`, via the `base64` crate: RFC 4648
standard alphabet with padding, canonical decoding) -/

def b64Cp (n : Nat) : Nat :=
  if n < 26 then 65 + n
  else if n < 52 then 97 + (n - 26)
  else if n < 62 then 48 + (n - 52)
  else if n = 62 then 43
  else 47

def b64Val (c : Nat) : Option Nat :=
  if 65 ≤ c ∧ c ≤ 90 then some (c - 65)
  else if 97 ≤ c ∧ c ≤ 122 then some (26 + (c - 97))
  else if 48 ≤ c ∧ c ≤ 57 then some (52 + (c - 48))
  else if c = 43 then some 62
  else if c = 47 then some 63
  else none

/-- `encoding::to_base64`: RFC 4648 standard encoding with padding
(code point 61 is the pad `=`). -/
def to_base64 : List Nat → List Nat
  | b0 :: b1 :: b2 :: rest =>
    b64Cp (b0 / 4) :: b64Cp (b0 % 4 * 16 + b1 / 16) ::
      b64Cp (b1 % 16 * 4 + b2 / 64) :: b64Cp (b2 % 64) :: to_base64 rest
  | [b0, b1] =>
    [b64Cp (b0 / 4), b64Cp (b0 % 4 * 16 + b1 / 16), b64Cp (b1 % 16 * 4), 61]
  | [b0] => [b64Cp (b0 / 4), b64Cp (b0 % 4 * 16), 61, 61]
  | [] => []

/-- RFC 4648 standard decoding: four-character groups, padding only in
the final group, trailing bits required to be zero. -/
def decodeB64 : List Nat → Option (List Nat)
  | [] => some []
  | c0 :: c1 :: c2 :: c3 :: rest =>
    match b64Val c0, b64Val c1 with
    | some v0, some v1 =>
      if c2 = 61 then
        if c3 = 61 ∧ rest = [] ∧ v1 % 16 = 0 then some [v0 * 4 + v1 / 16]
        else none
      else
        match b64Val c2 with
        | some v2 =>
          if c3 = 61 then
            if rest = [] ∧ v2 % 4 = 0 then
              some [v0 * 4 + v1 / 16, v1 % 16 * 16 + v2 / 4]
            else none
          else
            match b64Val c3 with
            | some v3 =>
              match decodeB64 rest with
              | some tail =>
                some ((v0 * 4 + v1 / 16) :: (v1 % 16 * 16 + v2 / 4) ::
                      (v2 % 4 * 64 + v3) :: tail)
              | none => none
            | none => none
        | none => none
    | _, _ => none
  | _ => none

/-- `encoding::from_base64`: decode, mapping failure to an `Encoding`
error. -/
def from_base64 (encoded : List Nat) : Except BoltError (List Nat) :=
  match decodeB64 encoded with
  | some d => .ok d
  | none => .error (.Encoding "invalid base64")

/-! ## NaCl box seal/open (`crypto.rs`)

The XSalsa20-Poly1305 box cipher and the X25519 public-key derivation
live in the external `crypto_box` crate; they are abstracted as a
record of pure functions. `encrypt pk sk nonce pt` and
`decrypt pk sk nonce ct` model `SalsaBox::new(&pk, &sk)` followed by
`encrypt`/`decrypt`; `derivePk sk` models `SecretKey::public_key`. -/

structure BoxPrimitive where
  derivePk : List Nat → List Nat
  encrypt : List Nat → List Nat → List Nat → List Nat → Option (List Nat)
  decrypt : List Nat → List Nat → List Nat → List Nat → Option (List Nat)

/-- `crypto::seal_box_payload` with the internally drawn random nonce
made an explicit argument. -/
def seal_box_payload (B : BoxPrimitive) (plaintext : List Nat)
    (remote_public_key sender_secret_key nonce : List Nat) :
    Except BoltError (List Nat) :=
  match B.encrypt remote_public_key sender_secret_key nonce plaintext with
  | none => .error (.Encryption "Encryption failed")
  | some ciphertext => .ok (to_base64 (nonce ++ ciphertext))

/-- `crypto::open_box_payload`. -/
def open_box_payload (B : BoxPrimitive) (sealed : List Nat)
    (sender_public_key receiver_secret_key : List Nat) :
    Except BoltError (List Nat) :=
  match from_base64 sealed with
  | .error e => .error e
  | .ok data =>
    if data.length < NONCE_LENGTH then
      .error (.Encryption "Sealed payload too short")
    else
      match B.decrypt sender_public_key receiver_secret_key
          (data.take NONCE_LENGTH) (data.drop NONCE_LENGTH) with
      | none => .error (.Encryption "Decryption failed")
      | some plaintext => .ok plaintext

/-- A degenerate box primitive (identity cipher), used only to witness
theorems at concrete inputs. -/
def trivBox : BoxPrimitive where
  derivePk := id
  encrypt := fun _ _ _ pt => some pt
  decrypt := fun _ _ _ ct => some ct

/-- Lexicographic strict order on byte lists, the ordering the spec
describes for `sort32` (shorter-is-smaller never arises there: both
inputs are 32 bytes). Used only to state properties, never by the
embedded code. -/
def lexLtBytes : List Nat → List Nat → Bool
  | [], [] => false
  | [], _ :: _ => true
  | _ :: _, [] => false
  | x :: xs, y :: ys =>
    if x < y then true else if y < x then false else lexLtBytes xs ys

/-! ## Lemmas about `sort32` -/

theorem sort32Go_false_swap :
    ∀ a b : List Nat, a.length = b.length →
      sort32Go a b = false → sort32Go b a = true := by
  intro a
  induction a with
  | nil => intro b h hf; simp [sort32Go] at hf
  | cons x xs ih =>
    intro b h hf
    cases b with
    | nil => simp at h
    | cons y ys =>
      simp only [sort32Go] at hf ⊢
      by_cases hxy : x = y
      · subst hxy
        have hxx : ¬ (x ≠ x) := by simp
        rw [if_neg hxx] at hf ⊢
        exact ih ys (by simpa using h) hf
      · rw [if_pos hxy] at hf
        have hnlt : ¬ x < y := by simpa using hf
        have hlt : y < x := by omega
        rw [if_pos (fun hyx => hxy hyx.symm)]
        simpa using hlt

theorem sort32Go_antisymm :
    ∀ a b : List Nat, a.length = b.length →
      sort32Go a b = true → sort32Go b a = true → a = b := by
  intro a
  induction a with
  | nil =>
    intro b h _ _
    cases b with
    | nil => rfl
    | cons y ys => simp at h
  | cons x xs ih =>
    intro b h hab hba
    cases b with
    | nil => simp at h
    | cons y ys =>
      simp only [sort32Go] at hab hba
      by_cases hxy : x = y
      · subst hxy
        have hxx : ¬ (x ≠ x) := by simp
        rw [if_neg hxx] at hab hba
        rw [ih ys (by simpa using h) hab hba]
      · rw [if_pos hxy] at hab
        rw [if_pos (fun hyx => hxy hyx.symm)] at hba
        have h1 : x < y := by simpa using hab
        have h2 : y < x := by simpa using hba
        omega

theorem sort32_comm (a b : List Nat) (h : a.length = b.length) :
    sort32 a b = sort32 b a := by
  unfold sort32
  rcases hab : sort32Go a b with _ | _
  · rcases hba : sort32Go b a with _ | _
    · exact absurd (sort32Go_false_swap a b h hab) (by simp [hba])
    · simp
  · rcases hba : sort32Go b a with _ | _
    · simp
    · simp only [if_pos rfl]
      rw [sort32Go_antisymm a b h hab hba]

theorem sort32Go_eq_not_lex :
    ∀ a b : List Nat, a.length = b.length →
      sort32Go a b = ! lexLtBytes b a := by
  intro a
  induction a with
  | nil =>
    intro b h
    cases b with
    | nil => rfl
    | cons y ys => simp at h
  | cons x xs ih =>
    intro b h
    cases b with
    | nil => simp at h
    | cons y ys =>
      simp only [sort32Go, lexLtBytes]
      by_cases hxy : x = y
      · subst hxy
        have hxx : ¬ (x ≠ x) := by simp
        rw [if_neg hxx, if_neg (Nat.lt_irrefl x), if_neg (Nat.lt_irrefl x)]
        exact ih ys (by simpa using h)
      · rw [if_pos hxy]
        rcases Nat.lt_trichotomy x y with h1 | h1 | h1
        · rw [if_neg (show ¬ y < x by omega), if_pos h1]
          simpa using h1
        · exact absurd h1 hxy
        · rw [if_pos h1]
          have hnlt : ¬ x < y := by omega
          simpa using hnlt

theorem sort32_lex_spec (a b : List Nat) (h : a.length = b.length) :
    sort32 a b = if lexLtBytes b a then b ++ a else a ++ b := by
  unfold sort32
  rw [sort32Go_eq_not_lex a b h]
  rcases hlex : lexLtBytes b a with _ | _ <;> simp

/-- C3: the SAS is invariant under simultaneously swapping the two
32-byte identity keys and the two 32-byte ephemeral keys:
`compute_sas(A, B, eA, eB) = compute_sas(B, A, eB, eA)`. -/
theorem compute_sas_comm (A B eA eB : List Nat)
    (hA : A.length = 32) (hB : B.length = 32)
    (hEA : eA.length = 32) (hEB : eB.length = 32) :
    compute_sas A B eA eB = compute_sas B A eB eA := by
  unfold compute_sas
  rw [sort32_comm A B (by omega), sort32_comm eA eB (by omega)]

/-- Witness for C3 at four concrete 32-byte keys. -/
theorem compute_sas_comm_witness :
    compute_sas (List.replicate 32 1) (List.replicate 32 2)
        (List.replicate 32 3) (List.replicate 32 4) =
      compute_sas (List.replicate 32 2) (List.replicate 32 1)
        (List.replicate 32 4) (List.replicate 32 3) :=
  compute_sas_comm _ _ _ _ (by simp) (by simp) (by simp) (by simp)

/-! ## Lemmas about the digest and hex rendering -/

theorem beBytes_length (k : Nat) : ∀ n, (beBytes k n).length = k := by
  induction k with
  | zero => intro n; rfl
  | succ k ih => intro n; simp [beBytes, ih]

theorem beBytes_lt (k : Nat) : ∀ n b, b ∈ beBytes k n → b < 256 := by
  induction k with
  | zero => intro n b hb; simp [beBytes] at hb
  | succ k ih =>
    intro n b hb
    simp only [beBytes, List.mem_append, List.mem_singleton] at hb
    rcases hb with hb | hb
    · exact ih _ _ hb
    · omega

theorem compressStep_length (s : List Nat) (kw : Nat × Nat) :
    (compressStep s kw).length = 8 := rfl

theorem foldl_compressStep_length :
    ∀ (l : List (Nat × Nat)) (s : List Nat), l ≠ [] →
      (l.foldl compressStep s).length = 8 := by
  intro l
  induction l with
  | nil => intro s h; exact absurd rfl h
  | cons p ps ih =>
    intro s _
    rw [List.foldl_cons]
    cases ps with
    | nil => exact compressStep_length s p
    | cons q qs => exact ih (compressStep s p) (by simp)

theorem extendSchedule_length : ∀ (n : Nat) (w : List Nat),
    (extendSchedule n w).length = w.length + n := by
  intro n
  induction n with
  | zero => intro w; rfl
  | succ n ih =>
    intro w
    show (extendSchedule n (schedStep w)).length = w.length + (n + 1)
    rw [ih (schedStep w)]
    simp [schedStep]
    omega

theorem processBlock_length (H block : List Nat) (h : H.length = 8) :
    (processBlock H block).length = 8 := by
  unfold processBlock
  rw [List.length_zipWith]
  rw [foldl_compressStep_length]
  · rw [h]; simp
  · have hK : K.length = 64 := by decide
    have : (K.zip (extendSchedule 48 block)).length = 64 ⊓ (block.length + 48) := by
      rw [List.length_zip, hK, extendSchedule_length]
    intro hnil
    rw [hnil] at this
    simp at this
    omega

theorem foldl_processBlock_length :
    ∀ (blocks : List (List Nat)) (H : List Nat), H.length = 8 →
      (blocks.foldl processBlock H).length = 8 := by
  intro blocks
  induction blocks with
  | nil => intro H h; exact h
  | cons b bs ih =>
    intro H h
    rw [List.foldl_cons]
    exact ih (processBlock H b) (processBlock_length H b h)

theorem flatten_map_beBytes_length :
    ∀ l : List Nat, ((l.map (beBytes 4)).flatten).length = 4 * l.length := by
  intro l
  induction l with
  | nil => rfl
  | cons h t ih =>
    simp only [List.map_cons, List.flatten_cons, List.length_append, ih,
      beBytes_length, List.length_cons]
    omega

theorem sha256_length (msg : List Nat) : (sha256 msg).length = 32 := by
  unfold sha256
  rw [flatten_map_beBytes_length, foldl_processBlock_length _ _ (by decide)]

theorem sha256_mem_lt (msg : List Nat) : ∀ b ∈ sha256 msg, b < 256 := by
  intro b hb
  unfold sha256 at hb
  rw [List.mem_flatten] at hb
  obtain ⟨l, hl, hbl⟩ := hb
  rw [List.mem_map] at hl
  obtain ⟨h, _, rfl⟩ := hl
  exact beBytes_lt 4 h b hbl

theorem to_hex_length (l : List Nat) : (to_hex l).length = 2 * l.length := by
  induction l with
  | nil => rfl
  | cons b bs ih =>
    simp only [to_hex, List.map_cons, List.flatten_cons, List.length_append,
      List.length_cons, List.length_nil, List.length_cons] at ih ⊢
    omega

theorem to_hex_mem_lower_hex (l : List Nat) (h : ∀ b ∈ l, b < 256) :
    ∀ c ∈ to_hex l, c ∈ strCodes "0123456789abcdef" := by
  intro c hc
  unfold to_hex at hc
  rw [List.mem_flatten] at hc
  obtain ⟨pair, hp, hcp⟩ := hc
  rw [List.mem_map] at hp
  obtain ⟨b, hbl, rfl⟩ := hp
  have hb := h b hbl
  have hx : ∀ n < 16, hexDigitCp n ∈ strCodes "0123456789abcdef" := by decide
  simp only [List.mem_cons, List.mem_singleton, List.not_mem_nil, or_false] at hcp
  rcases hcp with rfl | rfl
  · exact hx _ (by omega)
  · exact hx _ (by omega)

set_option maxRecDepth 100000 in
/-- C9 counterexample: `sha256_hex` of the empty input is not the
63-character literal given as the concrete vector in spec §8 (the
literal drops the final nibble of the SHA-256 digest of the empty
string). -/
theorem sha256_hex_empty_ne_spec_literal :
    sha256_hex [] ≠
      strCodes "e3b0c44298fc1c149afbf4c8996fb92427ae41e4649b934ca495991b7852b85" := by
  decide

set_option maxRecDepth 100000 in
/-- C9 amended: `sha256_hex` of the empty input is the full 64-character
lowercase hex rendering of SHA-256 of the empty string,
`e3b0...b855` (as also asserted by the crate's own `sha256_empty` test). -/
theorem sha256_hex_empty :
    sha256_hex [] =
      strCodes "e3b0c44298fc1c149afbf4c8996fb92427ae41e4649b934ca495991b7852b855" := by
  decide

/-- C4: `compute_sas` is exactly the uppercased first 6 hex characters
of `SHA-256(sort32(idA, idB) ‖ sort32(ephA, ephB))`; `sort32` puts the
lexicographically smaller 32-byte value first (keeping the given order
on equal inputs); the output always has exactly 6 characters, all
uppercase hex digits. -/
theorem compute_sas_functional_spec :
    (∀ ia ib ea eb : List Nat,
      compute_sas ia ib ea eb =
        ((to_hex (sha256 (sort32 ia ib ++ sort32 ea eb))).take SAS_LENGTH).map
          toUpperCp) ∧
    (∀ a b : List Nat, a.length = b.length →
      sort32 a b = if lexLtBytes b a then b ++ a else a ++ b) ∧
    (∀ ia ib ea eb : List Nat,
      (compute_sas ia ib ea eb).length = 6 ∧
      ∀ c ∈ compute_sas ia ib ea eb, c ∈ strCodes "0123456789ABCDEF") := by
  refine ⟨fun ia ib ea eb => rfl, sort32_lex_spec, fun ia ib ea eb => ?_⟩
  constructor
  · show (((to_hex (sha256 _)).take SAS_LENGTH).map toUpperCp).length = 6
    rw [List.length_map, List.length_take, to_hex_length, sha256_length]
    rfl
  · intro c hc
    have hc' : c ∈ ((to_hex (sha256 (sort32 ia ib ++ sort32 ea eb))).take
        SAS_LENGTH).map toUpperCp := hc
    rw [List.mem_map] at hc'
    obtain ⟨d, hd, rfl⟩ := hc'
    have hdh : d ∈ to_hex (sha256 (sort32 ia ib ++ sort32 ea eb)) :=
      List.mem_of_mem_take hd
    have hlow := to_hex_mem_lower_hex _ (sha256_mem_lt _) d hdh
    have hupper : ∀ d ∈ strCodes "0123456789abcdef",
        toUpperCp d ∈ strCodes "0123456789ABCDEF" := by decide
    exact hupper d hlow

/-- Witness for C4's `sort32` characterization at two concrete
equal-length byte strings. -/
theorem compute_sas_functional_spec_witness :
    sort32 [9, 1] [3, 7] =
      if lexLtBytes [3, 7] [9, 1] then [3, 7] ++ [9, 1] else [9, 1] ++ [3, 7] :=
  compute_sas_functional_spec.2.1 [9, 1] [3, 7] (by decide)

/-- C6: `WIRE_ERROR_CODES` is exactly the 22-entry list of spec §6, in
that order, with no duplicates, and `is_valid_wire_error_code` accepts
precisely its members (case-sensitively), rejecting every other string
including the empty string. -/
theorem wire_error_registry_spec :
    WIRE_ERROR_CODES =
      [ "VERSION_MISMATCH", "ENCRYPTION_FAILED", "INTEGRITY_FAILED"
      , "REPLAY_DETECTED", "TRANSFER_FAILED", "LIMIT_EXCEEDED"
      , "CONNECTION_LOST", "PEER_NOT_FOUND", "ALREADY_CONNECTED"
      , "INVALID_STATE", "KEY_MISMATCH", "DUPLICATE_HELLO"
      , "ENVELOPE_REQUIRED", "ENVELOPE_UNNEGOTIATED", "ENVELOPE_DECRYPT_FAIL"
      , "ENVELOPE_INVALID", "HELLO_PARSE_ERROR", "HELLO_DECRYPT_FAIL"
      , "HELLO_SCHEMA_ERROR", "INVALID_MESSAGE", "UNKNOWN_MESSAGE_TYPE"
      , "PROTOCOL_VIOLATION" ] ∧
    WIRE_ERROR_CODES.length = 22 ∧
    WIRE_ERROR_CODES.Nodup ∧
    (∀ c : String, is_valid_wire_error_code c = true ↔ c ∈ WIRE_ERROR_CODES) ∧
    is_valid_wire_error_code "" = false := by
  refine ⟨rfl, rfl, by decide, fun c => ?_, by decide⟩
  simp [is_valid_wire_error_code, List.elem_iff]

/-! ## Lemmas about peer codes -/

theorem alphabet_utf8_one : ∀ c ∈ PEER_CODE_ALPHABET, cpUtf8Size c = 1 := by
  decide

theorem strByteLen_of_alphabet :
    ∀ l : List Nat, (∀ c ∈ l, c ∈ PEER_CODE_ALPHABET) →
      strByteLen l = l.length := by
  intro l
  induction l with
  | nil => intro _; rfl
  | cons c cs ih =>
    intro h
    have h1 : cpUtf8Size c = 1 := alphabet_utf8_one c (h c (by simp))
    have h2 := ih (fun x hx => h x (by simp [hx]))
    simp only [strByteLen, List.map_cons, List.sum_cons, List.length_cons] at h2 ⊢
    omega

/-- `is_valid_peer_code` is a function of the normalized form. -/
theorem is_valid_eq_normalized (code : List Nat) :
    is_valid_peer_code code =
      ((strByteLen (normalize_peer_code code) == 6 ||
        strByteLen (normalize_peer_code code) == 8) &&
       (normalize_peer_code code).all (fun c => PEER_CODE_ALPHABET.contains c)) :=
  rfl

theorem peer_valid_iff (code : List Nat) :
    is_valid_peer_code code = true ↔
      (((normalize_peer_code code).length = 6 ∨
        (normalize_peer_code code).length = 8) ∧
        ∀ c ∈ normalize_peer_code code, c ∈ PEER_CODE_ALPHABET) := by
  rw [is_valid_eq_normalized]
  constructor
  · intro h
    rw [Bool.and_eq_true] at h
    obtain ⟨hlen, hall⟩ := h
    have hmem : ∀ c ∈ normalize_peer_code code, c ∈ PEER_CODE_ALPHABET := by
      intro c hc
      have := List.all_eq_true.mp hall c hc
      simpa [List.elem_iff] using this
    refine ⟨?_, hmem⟩
    rw [strByteLen_of_alphabet _ hmem, Bool.or_eq_true, beq_iff_eq,
      beq_iff_eq] at hlen
    exact hlen
  · intro h
    obtain ⟨hlen, hmem⟩ := h
    rw [Bool.and_eq_true]
    constructor
    · rw [strByteLen_of_alphabet _ hmem, Bool.or_eq_true, beq_iff_eq, beq_iff_eq]
      exact hlen
    · rw [List.all_eq_true]
      intro c hc
      simpa [List.elem_iff] using hmem c hc

theorem toUpperCp_toLowerCp (c : Nat) : toUpperCp (toLowerCp c) = toUpperCp c := by
  simp only [toUpperCp, toLowerCp]
  split_ifs <;> omega

theorem toUpperCp_idem (c : Nat) : toUpperCp (toUpperCp c) = toUpperCp c := by
  simp only [toUpperCp]
  split_ifs <;> omega

theorem toLowerCp_ne_dash (c : Nat) (h : c ≠ 45) : toLowerCp c ≠ 45 := by
  simp only [toLowerCp]
  split_ifs <;> omega

theorem toUpperCp_eq_dash_iff (c : Nat) : toUpperCp c = 45 ↔ c = 45 := by
  simp only [toUpperCp]
  split_ifs <;> omega

theorem toLowerCp_eq_dash_iff (c : Nat) : toLowerCp c = 45 ↔ c = 45 := by
  simp only [toLowerCp]
  split_ifs <;> omega

theorem normalize_map_toLower (code : List Nat) :
    normalize_peer_code (code.map toLowerCp) = normalize_peer_code code := by
  show ((code.map toLowerCp).filter (fun c => c ≠ 45)).map toUpperCp =
    (code.filter (fun c => c ≠ 45)).map toUpperCp
  calc ((code.map toLowerCp).filter (fun c => c ≠ 45)).map toUpperCp
      = ((code.filter (fun c => toLowerCp c ≠ 45)).map toLowerCp).map
          toUpperCp := by
        rw [List.filter_map]
        rfl
    _ = ((code.filter (fun c => c ≠ 45)).map toLowerCp).map toUpperCp := by
        congr 1
        congr 1
        apply List.filter_congr
        intro a _
        simp [toLowerCp_eq_dash_iff]
    _ = (code.filter (fun c => c ≠ 45)).map (toUpperCp ∘ toLowerCp) := by
        rw [List.map_map]
    _ = (code.filter (fun c => c ≠ 45)).map toUpperCp :=
        List.map_congr_left (fun a _ => toUpperCp_toLowerCp a)

theorem normalize_no_dash (code : List Nat) : 45 ∉ normalize_peer_code code := by
  unfold normalize_peer_code
  intro h
  rw [List.mem_map] at h
  obtain ⟨c, hc, hup⟩ := h
  rw [List.mem_filter] at hc
  have hne : c ≠ 45 := by simpa using hc.2
  exact hne ((toUpperCp_eq_dash_iff c).mp hup)

theorem normalize_idem (code : List Nat) :
    normalize_peer_code (normalize_peer_code code) = normalize_peer_code code := by
  have hfilter : (normalize_peer_code code).filter (fun c => c ≠ 45) =
      normalize_peer_code code := by
    rw [List.filter_eq_self]
    intro a ha
    have hno := normalize_no_dash code
    simp only [ne_eq, decide_eq_true_eq]
    intro h
    exact hno (h ▸ ha)
  calc normalize_peer_code (normalize_peer_code code)
      = ((normalize_peer_code code).filter (fun c => c ≠ 45)).map toUpperCp :=
        rfl
    _ = (normalize_peer_code code).map toUpperCp := by rw [hfilter]
    _ = normalize_peer_code code := by
        show (((code.filter (fun c => c ≠ 45)).map toUpperCp).map toUpperCp) = _
        rw [List.map_map]
        exact List.map_congr_left (fun a _ => toUpperCp_idem a)

theorem valid_normalize (code : List Nat) :
    is_valid_peer_code (normalize_peer_code code) = is_valid_peer_code code := by
  rw [is_valid_eq_normalized, is_valid_eq_normalized code, normalize_idem]

theorem valid_ignore_dashes (code : List Nat) :
    is_valid_peer_code (code.filter (fun c => c ≠ 45)) =
      is_valid_peer_code code := by
  have hn : normalize_peer_code (code.filter (fun c => c ≠ 45)) =
      normalize_peer_code code := by
    unfold normalize_peer_code
    rw [List.filter_filter]
    simp
  rw [is_valid_eq_normalized, is_valid_eq_normalized code, hn]

theorem peer_bad_char (code : List Nat) (c : Nat) (hc : c ∈ code)
    (hbad : c ∈ strCodes "0O1IL") : is_valid_peer_code code = false := by
  rcases hval : is_valid_peer_code code with _ | _
  · rfl
  · exfalso
    have hiff := (peer_valid_iff code).mp hval
    have hbadlist : c = 48 ∨ c = 79 ∨ c = 49 ∨ c = 73 ∨ c = 76 := by
      have he : strCodes "0O1IL" = [48, 79, 49, 73, 76] := by decide
      rw [he] at hbad
      simpa using hbad
    have hc45 : c ≠ 45 := by omega
    have hcn : toUpperCp c ∈ normalize_peer_code code := by
      unfold normalize_peer_code
      apply List.mem_map_of_mem
      rw [List.mem_filter]
      exact ⟨hc, by simpa using hc45⟩
    have hmem := hiff.2 _ hcn
    have hupc : toUpperCp c = c := by
      unfold toUpperCp
      rw [if_neg (by omega)]
    rw [hupc] at hmem
    have hnot : c ∉ PEER_CODE_ALPHABET := by
      rcases hbadlist with rfl | rfl | rfl | rfl | rfl <;> decide
    exact hnot hmem

/-- C7: `is_valid_peer_code` accepts exactly the strings whose
dash-stripped uppercase form has length 6 or 8 with every character in
the 31-symbol alphabet; any string containing `0`, `O`, `1`, `I` or
`L` is rejected; lowercasing the input never changes the verdict. -/
theorem is_valid_peer_code_spec :
    (∀ code : List Nat, is_valid_peer_code code = true ↔
      (((normalize_peer_code code).length = 6 ∨
        (normalize_peer_code code).length = 8) ∧
        ∀ c ∈ normalize_peer_code code, c ∈ PEER_CODE_ALPHABET)) ∧
    (∀ (code : List Nat) (c : Nat), c ∈ code → c ∈ strCodes "0O1IL" →
      is_valid_peer_code code = false) ∧
    (∀ code : List Nat,
      is_valid_peer_code (code.map toLowerCp) = is_valid_peer_code code) := by
  refine ⟨peer_valid_iff, peer_bad_char, fun code => ?_⟩
  rw [is_valid_eq_normalized, is_valid_eq_normalized code, normalize_map_toLower]

/-- Witness for C7: a code containing `0` is rejected, applied at the
concrete input `A0CDEF`. -/
theorem is_valid_peer_code_spec_witness :
    is_valid_peer_code (strCodes "A0CDEF") = false :=
  is_valid_peer_code_spec.2.1 (strCodes "A0CDEF") 48 (by decide) (by decide)

/-- C10: validity is invariant under normalization, normalization is
idempotent, and dashes (in any number and position) never affect
validity. -/
theorem normalize_peer_code_spec :
    (∀ code : List Nat,
      is_valid_peer_code code = is_valid_peer_code (normalize_peer_code code)) ∧
    (∀ code : List Nat,
      normalize_peer_code (normalize_peer_code code) = normalize_peer_code code) ∧
    (∀ code : List Nat,
      is_valid_peer_code (code.filter (fun c => c ≠ 45)) =
        is_valid_peer_code code) :=
  ⟨fun code => (valid_normalize code).symm, normalize_idem, valid_ignore_dashes⟩

/-! ## Lemmas about `fill_unbiased` -/

theorem alphabet_getD_mem :
    ∀ r < 31, PEER_CODE_ALPHABET.getD r 65 ∈ PEER_CODE_ALPHABET := by
  decide

theorem processBatch_sound (count : Nat) :
    ∀ batch acc : List Nat, acc.length ≤ count →
      (∀ c ∈ acc, c ∈ PEER_CODE_ALPHABET) →
      (processBatch count batch acc).length ≤ count ∧
        ∀ c ∈ processBatch count batch acc, c ∈ PEER_CODE_ALPHABET := by
  intro batch
  induction batch with
  | nil => intro acc h1 h2; exact ⟨h1, h2⟩
  | cons b bs ih =>
    intro acc h1 h2
    rw [processBatch]
    by_cases hstop : count ≤ acc.length
    · rw [if_pos hstop]
      exact ⟨h1, h2⟩
    · rw [if_neg hstop]
      by_cases hb : b < REJECTION_MAX
      · rw [if_pos hb]
        apply ih
        · simp only [List.length_append, List.length_cons, List.length_nil]
          omega
        · intro c hc
          rw [List.mem_append, List.mem_singleton] at hc
          rcases hc with hc | rfl
          · exact h2 c hc
          · apply alphabet_getD_mem
            exact Nat.mod_lt _ (by decide)
      · rw [if_neg hb]
        exact ih acc h1 h2

theorem fillLoop_sound (stream : Nat → Nat) (count : Nat) :
    ∀ (fuel pos : Nat) (acc s : List Nat), acc.length ≤ count →
      (∀ c ∈ acc, c ∈ PEER_CODE_ALPHABET) →
      fillLoop stream count fuel pos acc = some s →
      s.length = count ∧ ∀ c ∈ s, c ∈ PEER_CODE_ALPHABET := by
  intro fuel
  induction fuel with
  | zero => intro pos acc s _ _ h; simp [fillLoop] at h
  | succ fuel ih =>
    intro pos acc s h1 h2 h
    rw [fillLoop] at h
    by_cases hlt : acc.length < count
    · rw [if_pos hlt] at h
      have hpb := processBatch_sound count
        ((List.range (count - acc.length + 4)).map (fun i => stream (pos + i)))
        acc h1 h2
      exact ih _ _ s hpb.1 hpb.2 h
    · rw [if_neg hlt] at h
      obtain rfl : acc = s := Option.some.inj h
      exact ⟨by omega, h2⟩

/-- C8: rejection sampling in `fill_unbiased` is exactly unbiased and
well-formed: each of the 31 alphabet symbols is hit by exactly 8 of
the 248 accepted byte values; a byte below `REJECTION_MAX = 248`
emits `alphabet[b % 31]` and a byte at or above it is discarded; and
every string the loop returns has exactly the requested length with
all characters in the alphabet. -/
theorem fill_unbiased_spec :
    (∀ i < 31, ((List.range 248).filter
        (fun b => PEER_CODE_ALPHABET.getD (b % 31) 65 ==
          PEER_CODE_ALPHABET.getD i 65)).length = 8) ∧
    (∀ (count b : Nat) (rest acc : List Nat), acc.length < count →
      processBatch count (b :: rest) acc =
        if b < REJECTION_MAX then
          processBatch count rest
            (acc ++ [PEER_CODE_ALPHABET.getD (b % 31) 65])
        else processBatch count rest acc) ∧
    (∀ (stream : Nat → Nat) (count fuel : Nat) (s : List Nat),
      fill_unbiased stream count fuel = some s →
      s.length = count ∧ ∀ c ∈ s, c ∈ PEER_CODE_ALPHABET) := by
  refine ⟨by decide, ?_, ?_⟩
  · intro count b rest acc h
    rw [processBatch, if_neg (by omega)]
    rfl
  · intro stream count fuel s h
    exact fillLoop_sound stream count fuel 0 [] s (by simp) (by simp) h

/-- Witness for C8: the loop run on the identity byte stream with
count 6 returns `ABCDEF`, which has length 6 and alphabet characters
only. -/
theorem fill_unbiased_spec_witness :
    (strCodes "ABCDEF").length = 6 ∧
      ∀ c ∈ strCodes "ABCDEF", c ∈ PEER_CODE_ALPHABET :=
  fill_unbiased_spec.2.2 (fun i => i) 6 2 (strCodes "ABCDEF") (by decide)

/-! ## Base64 round trip -/

theorem b64Val_b64Cp : ∀ n < 64, b64Val (b64Cp n) = some n := by decide

theorem b64Cp_ne_pad : ∀ n < 64, b64Cp n ≠ 61 := by decide

theorem decode_to_base64 (l : List Nat) (h : ∀ b ∈ l, b < 256) :
    decodeB64 (to_base64 l) = some l := by
  match l with
  | [] => rfl
  | [b0] =>
    have hb0 : b0 < 256 := h b0 (by simp)
    have e0 : b64Val (b64Cp (b0 / 4)) = some (b0 / 4) :=
      b64Val_b64Cp _ (by omega)
    have e1 : b64Val (b64Cp (b0 % 4 * 16)) = some (b0 % 4 * 16) :=
      b64Val_b64Cp _ (by omega)
    show decodeB64 [b64Cp (b0 / 4), b64Cp (b0 % 4 * 16), 61, 61] = some [b0]
    simp only [decodeB64, e0, e1]
    have hz : b0 % 4 * 16 % 16 = 0 := by omega
    simp [hz]
    all_goals omega
  | [b0, b1] =>
    have hb0 : b0 < 256 := h b0 (by simp)
    have hb1 : b1 < 256 := h b1 (by simp)
    have e0 : b64Val (b64Cp (b0 / 4)) = some (b0 / 4) :=
      b64Val_b64Cp _ (by omega)
    have e1 : b64Val (b64Cp (b0 % 4 * 16 + b1 / 16)) =
        some (b0 % 4 * 16 + b1 / 16) := b64Val_b64Cp _ (by omega)
    have e2 : b64Val (b64Cp (b1 % 16 * 4)) = some (b1 % 16 * 4) :=
      b64Val_b64Cp _ (by omega)
    have n2 : b64Cp (b1 % 16 * 4) ≠ 61 := b64Cp_ne_pad _ (by omega)
    show decodeB64 [b64Cp (b0 / 4), b64Cp (b0 % 4 * 16 + b1 / 16),
      b64Cp (b1 % 16 * 4), 61] = some [b0, b1]
    simp only [decodeB64, e0, e1, e2]
    have hz : b1 % 16 * 4 % 4 = 0 := by omega
    simp [n2, hz]
    all_goals omega
  | b0 :: b1 :: b2 :: rest =>
    have hb0 : b0 < 256 := h b0 (by simp)
    have hb1 : b1 < 256 := h b1 (by simp)
    have hb2 : b2 < 256 := h b2 (by simp)
    have ih := decode_to_base64 rest (fun b hb => h b (by simp [hb]))
    have e0 : b64Val (b64Cp (b0 / 4)) = some (b0 / 4) :=
      b64Val_b64Cp _ (by omega)
    have e1 : b64Val (b64Cp (b0 % 4 * 16 + b1 / 16)) =
        some (b0 % 4 * 16 + b1 / 16) := b64Val_b64Cp _ (by omega)
    have e2 : b64Val (b64Cp (b1 % 16 * 4 + b2 / 64)) =
        some (b1 % 16 * 4 + b2 / 64) := b64Val_b64Cp _ (by omega)
    have e3 : b64Val (b64Cp (b2 % 64)) = some (b2 % 64) :=
      b64Val_b64Cp _ (by omega)
    have n2 : b64Cp (b1 % 16 * 4 + b2 / 64) ≠ 61 := b64Cp_ne_pad _ (by omega)
    have n3 : b64Cp (b2 % 64) ≠ 61 := b64Cp_ne_pad _ (by omega)
    show decodeB64 (b64Cp (b0 / 4) :: b64Cp (b0 % 4 * 16 + b1 / 16) ::
      b64Cp (b1 % 16 * 4 + b2 / 64) :: b64Cp (b2 % 64) ::
      to_base64 rest) = some (b0 :: b1 :: b2 :: rest)
    simp only [decodeB64, e0, e1, e2, e3, ih]
    simp [n2, n3]
    all_goals omega
termination_by l.length

/-! ## Lemmas about seal/open -/

theorem open_ok_characterization (B : BoxPrimitive) (s pk sk pt : List Nat) :
    open_box_payload B s pk sk = .ok pt →
    ∃ d, decodeB64 s = some d ∧ ¬ d.length < 24 ∧
      B.decrypt pk sk (d.take 24) (d.drop 24) = some pt := by
  intro h
  unfold open_box_payload from_base64 at h
  rcases hd : decodeB64 s with _ | d
  · rw [hd] at h
    simp at h
  · rw [hd] at h
    simp only at h
    by_cases hlen : d.length < NONCE_LENGTH
    · rw [if_pos hlen] at h
      simp at h
    · rw [if_neg hlen] at h
      rcases hdec : B.decrypt pk sk (d.take NONCE_LENGTH) (d.drop NONCE_LENGTH)
        with _ | q
      · rw [hdec] at h
        simp at h
      · rw [hdec] at h
        have hq : q = pt := by simpa using h
        subst hq
        refine ⟨d, rfl, ?_, ?_⟩
        · simpa [NONCE_LENGTH] using hlen
        · simpa [NONCE_LENGTH] using hdec

theorem open_error_kind (B : BoxPrimitive) (s pk sk : List Nat) (e : BoltError) :
    open_box_payload B s pk sk = .error e →
    e.isEncryption = true ∨ e.isEncoding = true := by
  intro h
  unfold open_box_payload from_base64 at h
  rcases hd : decodeB64 s with _ | d
  · rw [hd] at h
    simp only [Except.error.injEq] at h
    subst h
    right
    rfl
  · rw [hd] at h
    simp only at h
    by_cases hlen : d.length < NONCE_LENGTH
    · rw [if_pos hlen] at h
      simp only [Except.error.injEq] at h
      subst h
      left
      rfl
    · rw [if_neg hlen] at h
      rcases hdec : B.decrypt pk sk (d.take NONCE_LENGTH) (d.drop NONCE_LENGTH)
        with _ | q
      · rw [hdec] at h
        simp only [Except.error.injEq] at h
        subst h
        left
        rfl
      · rw [hdec] at h
        simp at h

theorem open_bad_base64 (B : BoxPrimitive) (s pk sk : List Nat)
    (h : decodeB64 s = none) :
    open_box_payload B s pk sk = .error (.Encoding "invalid base64") := by
  unfold open_box_payload from_base64
  rw [h]

theorem open_short (B : BoxPrimitive) (s pk sk d : List Nat)
    (h : decodeB64 s = some d) (hlen : d.length < 24) :
    open_box_payload B s pk sk =
      .error (.Encryption "Sealed payload too short") := by
  unfold open_box_payload from_base64
  rw [h]
  simp only [NONCE_LENGTH]
  rw [if_pos hlen]

theorem open_decrypt_fail (B : BoxPrimitive) (s pk sk d : List Nat)
    (h : decodeB64 s = some d) (hlen : ¬ d.length < 24)
    (hdec : B.decrypt pk sk (d.take 24) (d.drop 24) = none) :
    open_box_payload B s pk sk = .error (.Encryption "Decryption failed") := by
  unfold open_box_payload from_base64
  rw [h]
  simp only [NONCE_LENGTH]
  rw [if_neg hlen, hdec]

/-- C1: sealing then opening returns the original plaintext, for every
plaintext (empty included), every 24-byte nonce, and every pair of
keypairs whose public keys are the X25519 derivations of their secret
keys; the box cipher's round-trip contract under swapped key roles
enters as the hypothesis `hbox`. -/
theorem seal_open_round_trip (B : BoxPrimitive)
    (p skA skB nonce ct : List Nat)
    (hbox : ∀ n c q, B.encrypt (B.derivePk skB) skA n q = some c →
      B.decrypt (B.derivePk skA) skB n c = some q)
    (hn : nonce.length = 24) (hnb : ∀ b ∈ nonce, b < 256)
    (henc : B.encrypt (B.derivePk skB) skA nonce p = some ct)
    (hctb : ∀ b ∈ ct, b < 256) :
    seal_box_payload B p (B.derivePk skB) skA nonce =
      .ok (to_base64 (nonce ++ ct)) ∧
    open_box_payload B (to_base64 (nonce ++ ct)) (B.derivePk skA) skB =
      .ok p := by
  constructor
  · unfold seal_box_payload
    rw [henc]
  · unfold open_box_payload from_base64
    have hdecode : decodeB64 (to_base64 (nonce ++ ct)) = some (nonce ++ ct) := by
      apply decode_to_base64
      intro b hb
      rw [List.mem_append] at hb
      rcases hb with hb | hb
      · exact hnb b hb
      · exact hctb b hb
    rw [hdecode]
    simp only
    have hlen : ¬ (nonce ++ ct).length < NONCE_LENGTH := by
      rw [List.length_append, hn]
      show ¬ 24 + ct.length < 24
      omega
    rw [if_neg hlen]
    have htake : (nonce ++ ct).take NONCE_LENGTH = nonce := by
      rw [show NONCE_LENGTH = nonce.length from hn.symm]
      exact List.take_left nonce ct
    have hdrop : (nonce ++ ct).drop NONCE_LENGTH = ct := by
      rw [show NONCE_LENGTH = nonce.length from hn.symm]
      exact List.drop_left nonce ct
    rw [htake, hdrop, hbox nonce ct p henc]

/-- Witness for C1 with the degenerate identity box at a concrete
plaintext and the all-zero 24-byte nonce. -/
theorem seal_open_round_trip_witness :
    seal_box_payload trivBox [72, 105] (trivBox.derivePk []) []
        (List.replicate 24 0) =
      .ok (to_base64 (List.replicate 24 0 ++ [72, 105])) ∧
    open_box_payload trivBox (to_base64 (List.replicate 24 0 ++ [72, 105]))
        (trivBox.derivePk []) [] = .ok [72, 105] :=
  seal_open_round_trip trivBox [72, 105] [] [] (List.replicate 24 0) [72, 105]
    (fun n c q hqc => (Option.some.inj hqc) ▸ rfl)
    (by simp) (by decide) rfl (by decide)

/-- C2 counterexample: on the input `!`, which is not valid base64,
`open_box_payload` fails with the `Encoding` kind, not the
`Encryption` kind — so not every failure carries the `Encryption`
kind. -/
theorem open_box_payload_encoding_failure :
    open_box_payload trivBox (strCodes "!") [] [] =
      .error (.Encoding "invalid base64") ∧
    (BoltError.Encoding "invalid base64").isEncryption = false := by
  exact ⟨rfl, rfl⟩

/-- C2 amended: every failure of `open_box_payload` is of the
`Encryption` kind except a base64 decode failure, which is of the
`Encoding` kind; short payloads (under 24 decoded bytes) and cipher
failures yield `Encryption`; and a successful result can only come
from a successful decode and authenticated decryption, so no failure
path releases plaintext. -/
theorem open_box_payload_error_kinds :
    (∀ (B : BoxPrimitive) (s pk sk : List Nat) (e : BoltError),
      open_box_payload B s pk sk = .error e →
      e.isEncryption = true ∨ e.isEncoding = true) ∧
    (∀ (B : BoxPrimitive) (s pk sk : List Nat), decodeB64 s = none →
      open_box_payload B s pk sk = .error (.Encoding "invalid base64")) ∧
    (∀ (B : BoxPrimitive) (s pk sk d : List Nat), decodeB64 s = some d →
      d.length < 24 →
      open_box_payload B s pk sk =
        .error (.Encryption "Sealed payload too short")) ∧
    (∀ (B : BoxPrimitive) (s pk sk d : List Nat), decodeB64 s = some d →
      ¬ d.length < 24 → B.decrypt pk sk (d.take 24) (d.drop 24) = none →
      open_box_payload B s pk sk =
        .error (.Encryption "Decryption failed")) ∧
    (∀ (B : BoxPrimitive) (s pk sk pt : List Nat),
      open_box_payload B s pk sk = .ok pt →
      ∃ d, decodeB64 s = some d ∧ ¬ d.length < 24 ∧
        B.decrypt pk sk (d.take 24) (d.drop 24) = some pt) :=
  ⟨open_error_kind, open_bad_base64, open_short, open_decrypt_fail,
    open_ok_characterization⟩

/-- Witness for C2's amended statement: the short-payload path at a
concrete 10-byte decoded input fails with the `Encryption` kind. -/
theorem open_box_payload_error_kinds_witness :
    open_box_payload trivBox (to_base64 (List.replicate 10 0)) [] [] =
      .error (.Encryption "Sealed payload too short") :=
  open_box_payload_error_kinds.2.2.1 trivBox (to_base64 (List.replicate 10 0))
    [] [] (List.replicate 10 0) (by decide) (by decide)

end BoltCore
